import Mathlib

set_option linter.unusedVariables false

/-! Shallow embedding of the libuuid7 core (`src/uuid7.c`, `src/uuid7.h`).
Bytes are `Nat` values in `[0, 256)`; byte buffers are `List Nat`.
Machine-integer casts are written as explicit masks / `% 2^w`. -/

/-- Model of `struct timespec`: `tv_sec` is a signed 64-bit `time_t`;
`tv_nsec` is asserted by `uuid7_next` to lie in `[0, 999999999]` and is
modelled as a `Nat`. -/
structure Timespec where
  tv_sec : Int
  tv_nsec : Nat

/-- Model of `const uint8_t uuid7_version = 7;` (uuid7.c line 111). -/
def uuid7_version : Nat := 7

/-- Model of `const uint8_t uuid7_variant = 1;` (uuid7.c line 112). -/
def uuid7_variant : Nat := 1

/-- The encoding portion of `uuid7_next` (uuid7.c lines 139-163): packs the
masked seconds, the split nanosecond fraction, `segment` and the random
tail into the 16-byte wire form, with byte 9 (`loseq`) set to 0.  The
`(uint64_t)ts.tv_sec` cast is the explicit `% 2^64`. -/
def uuid7_encode (ts : Timespec) (segment : Nat) (random_bytes : Nat) : List Nat :=
  let seconds : Nat := ((ts.tv_sec % (2 ^ 64 : Int)).toNat) &&& 0x0000000FFFFFFFFF
  let hifrac : Nat := (ts.tv_nsec &&& 0x3FFC0000) >>> (2 + 4 * 4)
  let lofrac : Nat := (ts.tv_nsec &&& 0x0003FFC0) >>> (4 + 2)
  let hiseq : Nat := ts.tv_nsec &&& 0x3F
  [(seconds &&& 0x0000000FF0000000) >>> (7 * 4),
   (seconds &&& 0x000000000FF00000) >>> (5 * 4),
   (seconds &&& 0x00000000000FF000) >>> (3 * 4),
   (seconds &&& 0x0000000000000FF0) >>> (1 * 4),
   ((seconds &&& 0x000000000000000F) <<< (1 * 4)) ||| ((hifrac &&& 0x0F00) >>> (2 * 4)),
   hifrac &&& 0x00FF,
   ((uuid7_version &&& 0x0F) <<< 4) ||| ((lofrac &&& 0x0F00) >>> (2 * 4)),
   lofrac &&& 0x00FF,
   ((uuid7_variant &&& 0x03) <<< 6) ||| hiseq,
   0x00,
   (segment &&& 0xFF00) >>> 8,
   segment &&& 0x00FF,
   (random_bytes &&& 0x00000000000000FF) >>> (0 * 8),
   (random_bytes &&& 0x000000000000FF00) >>> (1 * 8),
   (random_bytes &&& 0x0000000000FF0000) >>> (2 * 8),
   (random_bytes &&& 0x00000000FF000000) >>> (3 * 8)]

/-- Model of C `memcmp` on byte buffers, as a three-way comparison (bytes
compare as `unsigned char`).  All callers in uuid7.c pass two buffers of
the same length. -/
def memcmp : List Nat → List Nat → Ordering
  | [], _ => Ordering.eq
  | _ :: _, [] => Ordering.eq
  | a :: as, b :: bs =>
    if a < b then Ordering.lt
    else if b < a then Ordering.gt
    else memcmp as bs

/-- Result of one `uuid7_next` / `uuid7` call: `ret` records whether the
returned pointer was non-NULL, `ubuf` the final contents of the 16-byte
output buffer, `last` the final contents of the last-issued state. -/
structure NextResult where
  ret : Bool
  ubuf : List Nat
  last : List Nat

/-- Model of `uuid7_next` (uuid7.c lines 114-228).  `cmp > 0` means the
clock went backwards (fail, state untouched); `cmp == 0` bumps the
`loseq` byte, clamping at 0xFF with a full 16-byte tie-break; on failure
the output buffer is zero-filled; on success the state becomes the
output.  The `% 0x100` on the stored sequence byte is the `uint8_t`
store, exact under the `seq <= 0xFF` guard. -/
def uuid7_next (ts : Timespec) (segment : Nat) (random_bytes : Nat)
    (last_issued : List Nat) : NextResult :=
  let ubuf := uuid7_encode ts segment random_bytes
  match memcmp (last_issued.take 9) (ubuf.take 9) with
  | Ordering.gt => ⟨false, List.replicate 16 0, last_issued⟩
  | Ordering.eq =>
    let seq := 1 + last_issued.getD 9 0
    if seq ≤ 0xFF then
      let ubuf2 := ubuf.set 9 (seq % 0x100)
      ⟨true, ubuf2, ubuf2⟩
    else
      let ubuf2 := ubuf.set 9 0xFF
      if memcmp last_issued ubuf2 = Ordering.lt then ⟨true, ubuf2, ubuf2⟩
      else ⟨false, List.replicate 16 0, last_issued⟩
  | Ordering.lt => ⟨true, ubuf, ubuf⟩

/-- Model of `uuid7_reset` (uuid7.c lines 85-100): `memset(uuid7_last,
0x00, 16)`, unconditionally zeroing the calling scope's state. -/
def uuid7_reset (_last : List Nat) : List Nat := List.replicate 16 0

/-- Model of `struct uuid7` (uuid7.h lines 23-33): the decoded fields,
each a bitfield of the declared width. -/
structure Uuid7 where
  seconds : Nat
  hifrac : Nat
  uuid_ver : Nat
  lofrac : Nat
  uuid_var : Nat
  hiseq : Nat
  loseq : Nat
  segment : Nat
  rand : Nat
deriving DecidableEq

/-- Field extraction of `uuid7_parts` (uuid7.c lines 235-252); each
bitfield store truncates to the declared field width (`% 2^w`). -/
def uuid7_parts_fields (bytes : List Nat) : Uuid7 :=
  { seconds := (((bytes.getD 0 0) <<< (7 * 4)) ||| ((bytes.getD 1 0) <<< (5 * 4))
      ||| ((bytes.getD 2 0) <<< (3 * 4)) ||| ((bytes.getD 3 0) <<< (1 * 4))
      ||| ((bytes.getD 4 0) >>> (1 * 4))) % 2 ^ 36
    hifrac := ((((bytes.getD 4 0) &&& 0x0F) <<< 8) ||| bytes.getD 5 0) % 2 ^ 12
    uuid_ver := (((bytes.getD 6 0) &&& 0xF0) >>> 4) % 2 ^ 4
    lofrac := ((((bytes.getD 6 0) &&& 0x0F) <<< 8) ||| bytes.getD 7 0) % 2 ^ 12
    uuid_var := (((bytes.getD 8 0) &&& 0xC0) >>> 6) % 2 ^ 2
    hiseq := ((bytes.getD 8 0) &&& 0x3F) % 2 ^ 6
    loseq := (bytes.getD 9 0) % 2 ^ 8
    segment := (((bytes.getD 10 0) <<< 8) ||| bytes.getD 11 0) % 2 ^ 16
    rand := (((bytes.getD 15 0) <<< (8 * 3)) ||| ((bytes.getD 14 0) <<< (8 * 2))
      ||| ((bytes.getD 13 0) <<< (8 * 1)) ||| ((bytes.getD 12 0) <<< (8 * 0))) % 2 ^ 32 }

/-- Return value of `uuid7_parts` (uuid7.c lines 254-255): the filled
struct when version and variant match, NULL (`none`) otherwise. -/
def uuid7_parts (bytes : List Nat) : Option Uuid7 :=
  let u := uuid7_parts_fields bytes
  if u.uuid_ver = uuid7_version ∧ u.uuid_var = uuid7_variant then some u else none

/-- Nanosecond reconstruction used by the test suite
(`uuid7_nanos`, uuid7-test.c lines 14-20): reassembles the fraction from
the decoded `hifrac`, `lofrac` and `hiseq` fields. -/
def uuid7_nanos (u : Uuid7) : Nat :=
  (u.hifrac <<< 18) ||| (u.lofrac <<< 6) ||| u.hiseq

/-- Model of `uuid7` (uuid7.c lines 258-290).  The time source is an
`Option Timespec` (`none` = `clock_gettime` failed); the randomness
source is the pair of its return count `rndbytes` and the 8 bytes it
wrote read as a `uint64_t`.  `segment` is taken from the high bytes of
the random value as in the `UUID7_WITH_MUTEX` / `UUID7_NO_THREADS`
builds; the thread-local build folds it from the address of the state,
which has no counterpart in this memory model, and no property proved
below depends on the segment value. -/
def uuid7 (clock : Option Timespec) (rndbytes : Int) (random_bytes : Nat)
    (last : List Nat) : NextResult :=
  match clock with
  | none => ⟨false, List.replicate 16 0, last⟩
  | some ts =>
    if rndbytes < 0 ∨ rndbytes ≠ 8 then ⟨false, List.replicate 16 0, last⟩
    else
      let segment := (random_bytes >>> (4 * 8)) % 2 ^ 16
      let rand32 := 0xFFFFFFFF &&& random_bytes
      uuid7_next ts segment rand32 last

/-- Model of `uuid7_nibble_to_hex` (uuid7.c lines 292-299). -/
def uuid7_nibble_to_hex (nib : Nat) : Char :=
  if nib < 10 then Char.ofNat ('0'.toNat + nib) else Char.ofNat ('a'.toNat + (nib - 10))

/-- Model of `uuid7_minz` (uuid7.c lines 301-304). -/
def uuid7_minz (a b : Nat) : Nat := if a < b then a else b

/-- The character-writing loop of `uuid7_to_string` (uuid7.c lines
315-329): two hex digits per byte, a hyphen after bytes 3, 5, 7 and 9. -/
def uuid7_chars : Nat → List Nat → List Char
  | _, [] => []
  | i, byte :: rest =>
    let hi_nib := (byte &&& 0xF0) >>> 4
    let lo_nib := byte &&& 0x0F
    [uuid7_nibble_to_hex hi_nib, uuid7_nibble_to_hex lo_nib]
      ++ (if i = 3 ∨ i = 3 + 2 ∨ i = 3 + 2 + 2 ∨ i = 3 + 2 + 2 + 2 then ['-'] else [])
      ++ uuid7_chars (i + 1) rest

/-- Model of `uuid7_to_string` (uuid7.c lines 307-331): the first
component is the returned string (`none` = NULL), the second the final
contents of the destination buffer, whose size is `buf.length`.  The
function first zeroes `min 37 buf.length` bytes, then on success writes
the 36 characters (byte 36 keeps the terminator 0 from the memset). -/
def uuid7_to_string (buf : List Nat) (bytes : List Nat) : Option String × List Nat :=
  let uuid_str_size := 16 * 2 + 4 + 1
  let z := uuid7_minz uuid_str_size buf.length
  let cleared := List.replicate z 0 ++ buf.drop z
  if buf.length < uuid_str_size then (none, cleared)
  else
    let cs := uuid7_chars 0 bytes
    (some (String.mk cs), cs.map Char.toNat ++ cleared.drop 36)

/-- Value of a byte buffer read as a big-endian integer. -/
def beVal : List Nat → Nat
  | [] => 0
  | b :: rest => b * 256 ^ rest.length + beVal rest

/-- A well-formed 16-byte buffer: length 16, every entry a byte value. -/
def Valid16 (l : List Nat) : Prop := l.length = 16 ∧ ∀ x ∈ l, x < 256

instance : DecidablePred Valid16 := fun l =>
  inferInstanceAs (Decidable (l.length = 16 ∧ ∀ x ∈ l, x < 256))

/-- Iterate `uuid7_next` over a list of (time, segment, random) inputs
against one last-issued state, collecting the outputs of the successful
calls and threading the state through. -/
def uuid7_run : List (Timespec × Nat × Nat) → List Nat → List (List Nat) × List Nat
  | [], last => ([], last)
  | (ts, seg, rnd) :: rest, last =>
    let r := uuid7_next ts seg rnd last
    let p := uuid7_run rest r.last
    (if r.ret then r.ubuf :: p.1 else p.1, p.2)

/-! Bit-arithmetic helper lemmas: every mask in uuid7.c is a contiguous
window `(2^w - 1) <<< k`, and every `|||` joins values on disjoint bit
ranges, so each byte and field reduces to `/` and `%` arithmetic. -/

theorem nat_and_shl (x m k : Nat) : x &&& (m <<< k) = ((x >>> k) &&& m) <<< k := by
  apply Nat.eq_of_testBit_eq
  intro i
  simp only [Nat.testBit_and, Nat.testBit_shiftLeft, Nat.testBit_shiftRight]
  by_cases h : k ≤ i
  · have h2 : k + (i - k) = i := by omega
    simp [h, h2, Bool.and_comm, Bool.and_left_comm]
  · simp [h]

theorem nat_window (x w k : Nat) :
    (x &&& ((2 ^ w - 1) <<< k)) >>> k = x / 2 ^ k % 2 ^ w := by
  rw [nat_and_shl, Nat.shiftLeft_shiftRight, Nat.and_pow_two_sub_one_eq_mod,
    Nat.shiftRight_eq_div_pow]

theorem nat_shl_or_add (a b n : Nat) (hb : b < 2 ^ n) :
    (a <<< n) ||| b = a * 2 ^ n + b := by
  have hmod : ((a <<< n) ||| b) &&& (2 ^ n - 1) = b := by
    rw [Nat.and_distrib_right, Nat.and_pow_two_sub_one_eq_mod,
      Nat.and_pow_two_sub_one_eq_mod, Nat.shiftLeft_eq, Nat.mul_mod_left,
      Nat.mod_eq_of_lt hb, Nat.zero_or]
  have hdiv : ((a <<< n) ||| b) >>> n = a := by
    apply Nat.eq_of_testBit_eq
    intro i
    simp only [Nat.testBit_shiftRight, Nat.testBit_or, Nat.testBit_shiftLeft]
    have h1 : n ≤ n + i := Nat.le_add_right n i
    have h2 : n + i - n = i := by omega
    have h3 : b.testBit (n + i) = false :=
      Nat.testBit_lt_two_pow (lt_of_lt_of_le hb (Nat.pow_le_pow_right (by omega) h1))
    simp [h1, h2, h3]
  calc (a <<< n) ||| b
      = 2 ^ n * (((a <<< n) ||| b) / 2 ^ n) + ((a <<< n) ||| b) % 2 ^ n :=
        (Nat.div_add_mod _ _).symm
    _ = a * 2 ^ n + b := by
        rw [← Nat.shiftRight_eq_div_pow, hdiv, ← Nat.and_pow_two_sub_one_eq_mod, hmod,
          Nat.mul_comm]

theorem nat_mask_shr_le (x m k : Nat) : (x &&& m) >>> k ≤ m >>> k := by
  simp only [Nat.shiftRight_eq_div_pow]
  exact Nat.div_le_div_right Nat.and_le_right

/-! Comparison lemmas: `memcmp` on equal-length byte buffers agrees with
comparison of their big-endian integer values. -/

theorem beVal_lt_pow (l : List Nat) (h : ∀ x ∈ l, x < 256) :
    beVal l < 256 ^ l.length := by
  induction l with
  | nil => simp [beVal]
  | cons b rest ih =>
    simp only [beVal, List.length_cons]
    have hb : b < 256 := h b (List.mem_cons_self _ _)
    have hr := ih (fun x hx => h x (List.mem_cons_of_mem _ hx))
    calc b * 256 ^ rest.length + beVal rest
        < (b + 1) * 256 ^ rest.length := by nlinarith
      _ ≤ 256 * 256 ^ rest.length := Nat.mul_le_mul_right _ (by omega)
      _ = 256 ^ (rest.length + 1) := by ring

theorem beVal_append (xs ys : List Nat) :
    beVal (xs ++ ys) = beVal xs * 256 ^ ys.length + beVal ys := by
  induction xs with
  | nil => simp [beVal]
  | cons b rest ih =>
    simp only [List.cons_append, beVal, List.append_eq, List.length_append, ih]
    ring

theorem memcmp_eq_of_eq (a : List Nat) : memcmp a a = Ordering.eq := by
  induction a with
  | nil => rfl
  | cons x xs ih => simp [memcmp, ih]

theorem memcmp_eq_iff (a b : List Nat) (h : a.length = b.length) :
    memcmp a b = Ordering.eq ↔ a = b := by
  constructor
  · intro he
    induction a generalizing b with
    | nil => cases b with
      | nil => rfl
      | cons y ys => simp at h
    | cons x xs ih =>
      cases b with
      | nil => simp at h
      | cons y ys =>
        simp only [memcmp] at he
        by_cases h1 : x < y
        · simp [h1] at he
        · by_cases h2 : y < x
          · simp [h1, h2] at he
          · have hxy : x = y := by omega
            simp only [h1, h2, if_false] at he
            have := ih ys (by simpa using h) he
            rw [hxy, this]
  · intro he; subst he; exact memcmp_eq_of_eq a

theorem memcmp_gt_iff (a b : List Nat) :
    memcmp a b = Ordering.gt ↔ memcmp b a = Ordering.lt := by
  induction a generalizing b with
  | nil => cases b <;> simp [memcmp]
  | cons x xs ih =>
    cases b with
    | nil => simp [memcmp]
    | cons y ys =>
      simp only [memcmp]
      by_cases h1 : x < y
      · have h2 : ¬ y < x := by omega
        simp [h1, h2]
      · by_cases h2 : y < x
        · simp [h1, h2]
        · simp [h1, h2, ih ys]

theorem memcmp_lt_beVal : ∀ (a b : List Nat), a.length = b.length →
    (∀ x ∈ a, x < 256) → (∀ x ∈ b, x < 256) →
    memcmp a b = Ordering.lt → beVal a < beVal b := by
  intro a
  induction a with
  | nil =>
    intro b hlen ha hb h
    cases b <;> simp [memcmp] at h
  | cons x xs ih =>
    intro b hlen ha hb h
    cases b with
    | nil => simp [memcmp] at h
    | cons y ys =>
      have hlen' : xs.length = ys.length := by simpa using hlen
      simp only [memcmp] at h
      simp only [beVal, hlen']
      by_cases h1 : x < y
      · have hxa : beVal xs < 256 ^ xs.length :=
          beVal_lt_pow xs (fun z hz => ha z (List.mem_cons_of_mem _ hz))
        rw [hlen'] at hxa
        have hpos : 0 < 256 ^ ys.length := Nat.pow_pos (by omega)
        nlinarith
      · by_cases h2 : y < x
        · simp [h1, h2] at h
        · have hxy : x = y := by omega
          simp only [h1, h2, if_false] at h
          have := ih ys hlen' (fun z hz => ha z (List.mem_cons_of_mem _ hz))
            (fun z hz => hb z (List.mem_cons_of_mem _ hz)) h
          rw [hxy]
          omega

theorem memcmp_lt_iff_beVal (a b : List Nat) (hlen : a.length = b.length)
    (ha : ∀ x ∈ a, x < 256) (hb : ∀ x ∈ b, x < 256) :
    memcmp a b = Ordering.lt ↔ beVal a < beVal b := by
  constructor
  · exact memcmp_lt_beVal a b hlen ha hb
  · intro hv
    cases hcm : memcmp a b with
    | lt => rfl
    | eq =>
      rw [(memcmp_eq_iff a b hlen).mp hcm] at hv
      omega
    | gt =>
      have := memcmp_lt_beVal b a hlen.symm hb ha ((memcmp_gt_iff a b).mp hcm)
      omega

theorem memcmp_take_lt (a b : List Nat) (n : Nat)
    (h : memcmp (a.take n) (b.take n) = Ordering.lt) : memcmp a b = Ordering.lt := by
  induction a generalizing b n with
  | nil => simp [memcmp] at h
  | cons x xs ih =>
    cases b with
    | nil =>
      rcases n with _ | m <;> simp [memcmp] at h
    | cons y ys =>
      rcases n with _ | m
      · simp [memcmp] at h
      · simp only [List.take_succ_cons, memcmp] at h ⊢
        by_cases h1 : x < y
        · simp [h1]
        · by_cases h2 : y < x
          · simp [h1, h2] at h
          · simp only [h1, h2, if_false] at h ⊢
            exact ih ys m h

theorem memcmp_drop_of_take_eq : ∀ (n : Nat) (a b : List Nat), a.take n = b.take n →
    memcmp a b = memcmp (a.drop n) (b.drop n) := by
  intro n
  induction n with
  | zero => intro a b _; simp
  | succ m ih =>
    intro a b htake
    cases a with
    | nil =>
      cases b with
      | nil => rfl
      | cons y ys => simp [List.take_succ_cons] at htake
    | cons x xs =>
      cases b with
      | nil => simp [List.take_succ_cons] at htake
      | cons y ys =>
        simp only [List.take_succ_cons, List.cons.injEq] at htake
        obtain ⟨hxy, htl⟩ := htake
        subst hxy
        simp only [memcmp, Nat.lt_irrefl, if_false, List.drop_succ_cons]
        exact ih xs ys htl

theorem beVal_lt_of_take_eq (a b : List Nat) (k : Nat) (hk : k < a.length)
    (hlen : a.length = b.length) (ha : ∀ x ∈ a, x < 256) (hb : ∀ x ∈ b, x < 256)
    (htake : a.take k = b.take k) (hlt : a.getD k 0 < b.getD k 0) :
    beVal a < beVal b := by
  apply memcmp_lt_beVal a b hlen ha hb
  rw [memcmp_drop_of_take_eq k a b htake]
  have hk' : k < b.length := hlen ▸ hk
  rw [List.drop_eq_getElem_cons hk, List.drop_eq_getElem_cons hk']
  rw [List.getD_eq_getElem a 0 hk, List.getD_eq_getElem b 0 hk'] at hlt
  simp [memcmp, hlt]

theorem uuid7_encode_length (ts : Timespec) (seg rnd : Nat) :
    (uuid7_encode ts seg rnd).length = 16 := rfl

theorem nat_or_byte {a b : Nat} (ha : a < 256) (hb : b < 256) : a ||| b < 256 := by
  have h := Nat.or_lt_two_pow (n := 8) (x := a) (y := b) (by omega) (by omega)
  omega

theorem uuid7_encode_valid (ts : Timespec) (seg rnd : Nat) :
    Valid16 (uuid7_encode ts seg rnd) := by
  constructor
  · rfl
  · intro x hx
    simp only [uuid7_encode, List.mem_cons, List.not_mem_nil, or_false] at hx
    have hver : ((uuid7_version &&& 0x0F) <<< 4) = 112 := by decide
    have hvar : ((uuid7_variant &&& 0x03) <<< 6) = 64 := by decide
    rcases hx with h | h | h | h | h | h | h | h | h | h | h | h | h | h | h | h <;> subst h
    · exact lt_of_le_of_lt (nat_mask_shr_le _ _ _) (by decide)
    · exact lt_of_le_of_lt (nat_mask_shr_le _ _ _) (by decide)
    · exact lt_of_le_of_lt (nat_mask_shr_le _ _ _) (by decide)
    · exact lt_of_le_of_lt (nat_mask_shr_le _ _ _) (by decide)
    · refine nat_or_byte ?_ (lt_of_le_of_lt (nat_mask_shr_le _ _ _) (by decide))
      rw [Nat.shiftLeft_eq]
      have h1 : (((ts.tv_sec % (2 ^ 64 : Int)).toNat) &&& 0x0000000FFFFFFFFF) &&& 0xF ≤ 0xF :=
        Nat.and_le_right
      have h2 : (2 : Nat) ^ (1 * 4) = 16 := by norm_num
      rw [h2]
      omega
    · exact lt_of_le_of_lt Nat.and_le_right (by decide)
    · rw [hver]
      exact nat_or_byte (by omega) (lt_of_le_of_lt (nat_mask_shr_le _ _ _) (by decide))
    · exact lt_of_le_of_lt Nat.and_le_right (by decide)
    · rw [hvar]
      exact nat_or_byte (by omega) (lt_of_le_of_lt Nat.and_le_right (by decide))
    · omega
    · exact lt_of_le_of_lt (nat_mask_shr_le _ _ _) (by decide)
    · exact lt_of_le_of_lt Nat.and_le_right (by decide)
    · exact lt_of_le_of_lt (nat_mask_shr_le _ _ _) (by decide)
    · exact lt_of_le_of_lt (nat_mask_shr_le _ _ _) (by decide)
    · exact lt_of_le_of_lt (nat_mask_shr_le _ _ _) (by decide)
    · exact lt_of_le_of_lt (nat_mask_shr_le _ _ _) (by decide)

theorem valid16_getD_lt (l : List Nat) (h16 : l.length = 16)
    (hb : ∀ x ∈ l, x < 256) : l.getD 9 0 < 256 := by
  have h9 : 9 < l.length := by omega
  rw [List.getD_eq_getElem l 0 h9]
  exact hb _ (List.getElem_mem h9)

theorem valid16_set (l : List Nat) (hv : Valid16 l) (i v : Nat) (hvv : v < 256) :
    Valid16 (l.set i v) := by
  obtain ⟨h1, h2⟩ := hv
  refine ⟨by simp [h1], fun x hx => ?_⟩
  rcases List.mem_or_eq_of_mem_set hx with h | h
  · exact h2 x h
  · omega

theorem take9_set9 (l : List Nat) (h16 : l.length = 16) (v : Nat) :
    (l.set 9 v).take 9 = l.take 9 := by
  rw [List.set_take]
  apply List.set_eq_of_length_le
  simp [h16]

theorem getD_set9 (l : List Nat) (h16 : l.length = 16) (v : Nat) :
    (l.set 9 v).getD 9 0 = v := by
  have h9 : 9 < (l.set 9 v).length := by simp [h16]
  rw [List.getD_eq_getElem _ 0 h9]
  simp

/-- One successful `uuid7_next` call makes its output the new state and
strictly increases the big-endian value of the state; one failed call
leaves the state untouched. -/
theorem uuid7_next_step (ts : Timespec) (seg rnd : Nat) (last : List Nat)
    (hv : Valid16 last) :
    ((uuid7_next ts seg rnd last).ret = true →
       (uuid7_next ts seg rnd last).last = (uuid7_next ts seg rnd last).ubuf ∧
       Valid16 (uuid7_next ts seg rnd last).ubuf ∧
       beVal last < beVal (uuid7_next ts seg rnd last).ubuf) ∧
    ((uuid7_next ts seg rnd last).ret = false →
       (uuid7_next ts seg rnd last).last = last) := by
  obtain ⟨hlen, hbytes⟩ := hv
  obtain ⟨hulen, hubytes⟩ := uuid7_encode_valid ts seg rnd
  cases hcmp : memcmp (last.take 9) ((uuid7_encode ts seg rnd).take 9) with
  | gt =>
    have hres : uuid7_next ts seg rnd last =
        ⟨false, List.replicate 16 0, last⟩ := by
      simp only [uuid7_next, hcmp]
    rw [hres]
    exact ⟨fun h => by simp at h, fun _ => rfl⟩
  | lt =>
    have hres : uuid7_next ts seg rnd last =
        ⟨true, uuid7_encode ts seg rnd, uuid7_encode ts seg rnd⟩ := by
      simp only [uuid7_next, hcmp]
    rw [hres]
    refine ⟨fun _ => ⟨rfl, ⟨hulen, hubytes⟩, ?_⟩, fun h => by simp at h⟩
    show beVal last < beVal (uuid7_encode ts seg rnd)
    exact memcmp_lt_beVal last _ (by omega) hbytes hubytes (memcmp_take_lt _ _ 9 hcmp)
  | eq =>
    have htake : last.take 9 = (uuid7_encode ts seg rnd).take 9 := by
      refine (memcmp_eq_iff _ _ ?_).mp hcmp
      simp [hlen, hulen]
    have hg : last.getD 9 0 < 256 := valid16_getD_lt last hlen hbytes
    by_cases hseq : 1 + last.getD 9 0 ≤ 0xFF
    · have hres : uuid7_next ts seg rnd last =
          ⟨true, (uuid7_encode ts seg rnd).set 9 ((1 + last.getD 9 0) % 0x100),
            (uuid7_encode ts seg rnd).set 9 ((1 + last.getD 9 0) % 0x100)⟩ := by
        simp only [uuid7_next, hcmp]
        rw [if_pos hseq]
      rw [hres]
      refine ⟨fun _ => ⟨rfl, ?_, ?_⟩, fun h => by simp at h⟩
      · exact valid16_set _ ⟨hulen, hubytes⟩ 9 _ (by omega)
      · refine beVal_lt_of_take_eq last _ 9 (by omega) (by simp [hlen, hulen]) hbytes
          (valid16_set _ ⟨hulen, hubytes⟩ 9 _ (by omega)).2 ?_ ?_
        · rw [take9_set9 _ hulen, htake]
        · rw [getD_set9 _ hulen]
          omega
    · by_cases hc2 : memcmp last ((uuid7_encode ts seg rnd).set 9 0xFF) = Ordering.lt
      · have hres : uuid7_next ts seg rnd last =
            ⟨true, (uuid7_encode ts seg rnd).set 9 0xFF,
              (uuid7_encode ts seg rnd).set 9 0xFF⟩ := by
          simp only [uuid7_next, hcmp]
          rw [if_neg hseq, if_pos hc2]
        rw [hres]
        refine ⟨fun _ => ⟨rfl, ?_, ?_⟩, fun h => by simp at h⟩
        · exact valid16_set _ ⟨hulen, hubytes⟩ 9 0xFF (by omega)
        · exact memcmp_lt_beVal last _ (by simp [hlen, hulen]) hbytes
            (valid16_set _ ⟨hulen, hubytes⟩ 9 0xFF (by omega)).2 hc2
      · have hres : uuid7_next ts seg rnd last =
            ⟨false, List.replicate 16 0, last⟩ := by
          simp only [uuid7_next, hcmp]
          rw [if_neg hseq, if_neg hc2]
        rw [hres]
        exact ⟨fun h => by simp at h, fun _ => rfl⟩

theorem uuid7_run_sorted : ∀ (inputs : List (Timespec × Nat × Nat)) (last : List Nat),
    Valid16 last →
    List.Pairwise (fun a b => beVal a < beVal b) (uuid7_run inputs last).1 ∧
    ∀ o ∈ (uuid7_run inputs last).1, beVal last < beVal o := by
  intro inputs
  induction inputs with
  | nil =>
    intro last hv
    simp [uuid7_run]
  | cons inp rest ih =>
    intro last hv
    obtain ⟨ts, seg, rnd⟩ := inp
    have hstep := uuid7_next_step ts seg rnd last hv
    cases hret : (uuid7_next ts seg rnd last).ret with
    | false =>
      have hlast := hstep.2 hret
      simp only [uuid7_run, hret, hlast, if_false, Bool.false_eq_true]
      exact ih last hv
    | true =>
      obtain ⟨hl, hvu, hlt⟩ := hstep.1 hret
      simp only [uuid7_run, hret, hl, if_true]
      obtain ⟨ihp, ihall⟩ := ih (uuid7_next ts seg rnd last).ubuf hvu
      refine ⟨List.pairwise_cons.mpr ⟨ihall, ihp⟩, ?_⟩
      intro o ho
      rcases List.mem_cons.mp ho with h | h
      · rw [h]; exact hlt
      · exact lt_trans hlt (ihall o h)

/-- C1: for any sequence of `uuid7_next` calls against one last-issued
state with no intervening reset, the outputs of the successful calls are
strictly increasing under big-endian integer comparison of their 16
bytes: each successful output is strictly greater than every earlier
successful one. -/
theorem uuid7_c1_monotonic (inputs : List (Timespec × Nat × Nat)) (last : List Nat)
    (hv : Valid16 last)
    (hn : ∀ i ∈ inputs, i.1.tv_nsec ≤ 999999999) :
    List.Pairwise (fun a b => beVal a < beVal b) (uuid7_run inputs last).1 :=
  (uuid7_run_sorted inputs last hv).1

theorem uuid7_c1_monotonic_witness :
    (Valid16 (List.replicate 16 0) ∧
      ∀ i ∈ [((⟨100, 7⟩ : Timespec), 1, 2), (⟨100, 7⟩, 3, 4), (⟨200, 0⟩, 5, 6)],
        (i.1).tv_nsec ≤ 999999999) ∧
    List.Pairwise (fun a b => beVal a < beVal b)
      (uuid7_run [(⟨100, 7⟩, 1, 2), (⟨100, 7⟩, 3, 4), (⟨200, 0⟩, 5, 6)]
        (List.replicate 16 0)).1 :=
  ⟨⟨by decide, by decide⟩, uuid7_c1_monotonic _ _ (by decide) (by decide)⟩

/-- C2 (amended): if the freshly encoded candidate's 9-byte ordering
prefix compares strictly less than the last-issued prefix (clock
regression), `uuid7_next` fails, the state is completely unchanged, and
the output buffer is zero-filled; a subsequent call whose candidate
prefix compares strictly after the original prefix succeeds again, and
one whose prefix compares equal succeeds again provided the loseq
counter is not exhausted (last-issued loseq below 0xFF). -/
theorem uuid7_c2_regression (ts ts' : Timespec) (seg rnd seg' rnd' : Nat)
    (last : List Nat) :
    (memcmp (last.take 9) ((uuid7_encode ts seg rnd).take 9) = Ordering.gt →
       (uuid7_next ts seg rnd last).ret = false ∧
       (uuid7_next ts seg rnd last).last = last ∧
       (uuid7_next ts seg rnd last).ubuf = List.replicate 16 0) ∧
    (memcmp (last.take 9) ((uuid7_encode ts' seg' rnd').take 9) = Ordering.lt →
       (uuid7_next ts' seg' rnd' last).ret = true) ∧
    (memcmp (last.take 9) ((uuid7_encode ts' seg' rnd').take 9) = Ordering.eq →
       last.getD 9 0 < 0xFF →
       (uuid7_next ts' seg' rnd' last).ret = true) := by
  refine ⟨fun hgt => ?_, fun hlt => ?_, fun heq hsq => ?_⟩
  · have hres : uuid7_next ts seg rnd last = ⟨false, List.replicate 16 0, last⟩ := by
      simp only [uuid7_next, hgt]
    rw [hres]
    exact ⟨rfl, rfl, rfl⟩
  · have hres : uuid7_next ts' seg' rnd' last =
        ⟨true, uuid7_encode ts' seg' rnd', uuid7_encode ts' seg' rnd'⟩ := by
      simp only [uuid7_next, hlt]
    rw [hres]
  · have hres : uuid7_next ts' seg' rnd' last =
        ⟨true, (uuid7_encode ts' seg' rnd').set 9 ((1 + last.getD 9 0) % 0x100),
          (uuid7_encode ts' seg' rnd').set 9 ((1 + last.getD 9 0) % 0x100)⟩ := by
      simp only [uuid7_next, heq]
      rw [if_pos (by omega)]
    rw [hres]

theorem uuid7_c2_regression_witness :
    ((uuid7_next ⟨99, 0⟩ 0 0 (uuid7_encode ⟨100, 0⟩ 0 5)).ret = false ∧
     (uuid7_next ⟨99, 0⟩ 0 0 (uuid7_encode ⟨100, 0⟩ 0 5)).last = uuid7_encode ⟨100, 0⟩ 0 5 ∧
     (uuid7_next ⟨99, 0⟩ 0 0 (uuid7_encode ⟨100, 0⟩ 0 5)).ubuf = List.replicate 16 0) ∧
    (uuid7_next ⟨101, 0⟩ 0 0 (uuid7_encode ⟨100, 0⟩ 0 5)).ret = true ∧
    (uuid7_next ⟨100, 0⟩ 0 0 (uuid7_encode ⟨100, 0⟩ 0 5)).ret = true :=
  ⟨(uuid7_c2_regression ⟨99, 0⟩ ⟨101, 0⟩ 0 0 0 0 (uuid7_encode ⟨100, 0⟩ 0 5)).1
      (by decide),
   (uuid7_c2_regression ⟨99, 0⟩ ⟨101, 0⟩ 0 0 0 0 (uuid7_encode ⟨100, 0⟩ 0 5)).2.1
      (by decide),
   (uuid7_c2_regression ⟨99, 0⟩ ⟨100, 0⟩ 0 0 0 0 (uuid7_encode ⟨100, 0⟩ 0 5)).2.2
      (by decide) (by decide)⟩

/-- C2 counterexample: with a last-issued state whose loseq counter is
exhausted (0xFF) and whose random tail is maximal, a clock-regression
call fails and leaves the state unchanged, yet the subsequent call whose
candidate prefix compares equal to ("at") the original last-issued
prefix still fails, refuting the claim that any candidate prefix at or
after the original succeeds again. -/
theorem uuid7_c2_counterexample :
    (uuid7_next ⟨99, 0⟩ 0 0 ((uuid7_encode ⟨100, 0⟩ 0 0xFFFFFFFF).set 9 0xFF)).ret
        = false ∧
    (uuid7_next ⟨99, 0⟩ 0 0 ((uuid7_encode ⟨100, 0⟩ 0 0xFFFFFFFF).set 9 0xFF)).last
        = (uuid7_encode ⟨100, 0⟩ 0 0xFFFFFFFF).set 9 0xFF ∧
    memcmp (((uuid7_encode ⟨100, 0⟩ 0 0xFFFFFFFF).set 9 0xFF).take 9)
        ((uuid7_encode ⟨100, 0⟩ 0 0).take 9) = Ordering.eq ∧
    (uuid7_next ⟨100, 0⟩ 0 0 ((uuid7_encode ⟨100, 0⟩ 0 0xFFFFFFFF).set 9 0xFF)).ret
        = false := by
  decide

/-- C3: when the candidate's 9-byte prefix equals the last-issued prefix,
`uuid7_next` stores last-issued loseq + 1 into the candidate's loseq
byte and succeeds as long as the increment stays within the 8-bit range;
when last-issued loseq is already 0xFF the stored byte is clamped to
0xFF and the call succeeds if and only if the full 16-byte candidate
compares strictly greater (as a big-endian integer) than the last-issued
value.  Iterating the first conjunct drives loseq through 0..255 on
successive same-prefix calls. -/
theorem uuid7_c3_sequence (ts : Timespec) (seg rnd : Nat) (last : List Nat)
    (hv : Valid16 last)
    (heq : memcmp (last.take 9) ((uuid7_encode ts seg rnd).take 9) = Ordering.eq) :
    (last.getD 9 0 < 0xFF →
       (uuid7_next ts seg rnd last).ret = true ∧
       (uuid7_next ts seg rnd last).ubuf.getD 9 0 = last.getD 9 0 + 1) ∧
    (last.getD 9 0 = 0xFF →
       ((uuid7_next ts seg rnd last).ret = true ↔
          beVal last < beVal ((uuid7_encode ts seg rnd).set 9 0xFF)) ∧
       ((uuid7_next ts seg rnd last).ret = true →
          (uuid7_next ts seg rnd last).ubuf.getD 9 0 = 0xFF)) := by
  obtain ⟨hlen, hbytes⟩ := hv
  obtain ⟨hulen, hubytes⟩ := uuid7_encode_valid ts seg rnd
  constructor
  · intro hsq
    have hres : uuid7_next ts seg rnd last =
        ⟨true, (uuid7_encode ts seg rnd).set 9 ((1 + last.getD 9 0) % 0x100),
          (uuid7_encode ts seg rnd).set 9 ((1 + last.getD 9 0) % 0x100)⟩ := by
      simp only [uuid7_next, heq]
      rw [if_pos (by omega)]
    rw [hres]
    refine ⟨rfl, ?_⟩
    rw [getD_set9 _ hulen]
    omega
  · intro hsq
    have hvset := valid16_set _ ⟨hulen, hubytes⟩ 9 0xFF (by omega)
    have hiff : memcmp last ((uuid7_encode ts seg rnd).set 9 0xFF) = Ordering.lt ↔
        beVal last < beVal ((uuid7_encode ts seg rnd).set 9 0xFF) :=
      memcmp_lt_iff_beVal _ _ (by simp [hlen, hulen]) hbytes hvset.2
    by_cases hc2 : memcmp last ((uuid7_encode ts seg rnd).set 9 0xFF) = Ordering.lt
    · have hres : uuid7_next ts seg rnd last =
          ⟨true, (uuid7_encode ts seg rnd).set 9 0xFF,
            (uuid7_encode ts seg rnd).set 9 0xFF⟩ := by
        simp only [uuid7_next, heq]
        rw [if_neg (by omega), if_pos hc2]
      rw [hres]
      refine ⟨?_, fun _ => getD_set9 _ hulen 0xFF⟩
      simpa using hiff.mp hc2
    · have hres : uuid7_next ts seg rnd last =
          ⟨false, List.replicate 16 0, last⟩ := by
        simp only [uuid7_next, heq]
        rw [if_neg (by omega), if_neg hc2]
      rw [hres]
      constructor
      · constructor
        · intro h
          simp at h
        · intro h
          exact absurd (hiff.mpr h) hc2
      · intro h
        simp at h

theorem uuid7_c3_sequence_witness :
    ((uuid7_next ⟨100, 0⟩ 0 0 (uuid7_encode ⟨100, 0⟩ 0 5)).ret = true ∧
     (uuid7_next ⟨100, 0⟩ 0 0 (uuid7_encode ⟨100, 0⟩ 0 5)).ubuf.getD 9 0
       = (uuid7_encode ⟨100, 0⟩ 0 5).getD 9 0 + 1) ∧
    (((uuid7_next ⟨100, 0⟩ 0 0 ((uuid7_encode ⟨100, 0⟩ 0 0xFFFFFFFF).set 9 0xFF)).ret
        = true ↔
      beVal ((uuid7_encode ⟨100, 0⟩ 0 0xFFFFFFFF).set 9 0xFF)
        < beVal ((uuid7_encode ⟨100, 0⟩ 0 0).set 9 0xFF)) ∧
     ((uuid7_next ⟨100, 0⟩ 0 0 ((uuid7_encode ⟨100, 0⟩ 0 0xFFFFFFFF).set 9 0xFF)).ret
        = true →
      (uuid7_next ⟨100, 0⟩ 0 0
        ((uuid7_encode ⟨100, 0⟩ 0 0xFFFFFFFF).set 9 0xFF)).ubuf.getD 9 0 = 0xFF)) :=
  ⟨(uuid7_c3_sequence ⟨100, 0⟩ 0 0 (uuid7_encode ⟨100, 0⟩ 0 5)
      (by decide) (by decide)).1 (by decide),
   (uuid7_c3_sequence ⟨100, 0⟩ 0 0 ((uuid7_encode ⟨100, 0⟩ 0 0xFFFFFFFF).set 9 0xFF)
      (by decide) (by decide)).2 (by decide)⟩

/-- Arithmetic characterization of the encoder: every mask/shift in
uuid7.c reduces to division and remainder by powers of two. -/
theorem uuid7_encode_spec (ts : Timespec) (seg rnd : Nat) (hn : ts.tv_nsec ≤ 999999999) :
    uuid7_encode ts seg rnd =
      [(ts.tv_sec % (2 ^ 64 : Int)).toNat % 2 ^ 36 / 2 ^ 28,
       (ts.tv_sec % (2 ^ 64 : Int)).toNat % 2 ^ 36 / 2 ^ 20 % 2 ^ 8,
       (ts.tv_sec % (2 ^ 64 : Int)).toNat % 2 ^ 36 / 2 ^ 12 % 2 ^ 8,
       (ts.tv_sec % (2 ^ 64 : Int)).toNat % 2 ^ 36 / 2 ^ 4 % 2 ^ 8,
       (ts.tv_sec % (2 ^ 64 : Int)).toNat % 2 ^ 36 % 2 ^ 4 * 2 ^ 4 + ts.tv_nsec / 2 ^ 26,
       ts.tv_nsec / 2 ^ 18 % 2 ^ 8,
       7 * 2 ^ 4 + ts.tv_nsec / 2 ^ 14 % 2 ^ 4,
       ts.tv_nsec / 2 ^ 6 % 2 ^ 8,
       2 ^ 6 + ts.tv_nsec % 2 ^ 6,
       0,
       seg / 2 ^ 8 % 2 ^ 8,
       seg % 2 ^ 8,
       rnd % 2 ^ 8,
       rnd / 2 ^ 8 % 2 ^ 8,
       rnd / 2 ^ 16 % 2 ^ 8,
       rnd / 2 ^ 24 % 2 ^ 8] := by
  have hn30 : ts.tv_nsec < 2 ^ 30 := by omega
  have hsM : (ts.tv_sec % (2 ^ 64 : Int)).toNat % 2 ^ 36 < 2 ^ 36 := Nat.mod_lt _ (by norm_num)
  have hS : ((ts.tv_sec % (2 ^ 64 : Int)).toNat &&& 0x0000000FFFFFFFFF) = (ts.tv_sec % (2 ^ 64 : Int)).toNat % 2 ^ 36 := by
    rw [show (0x0000000FFFFFFFFF : Nat) = 2 ^ 36 - 1 from by norm_num,
      Nat.and_pow_two_sub_one_eq_mod]
  have hH : ((ts.tv_nsec &&& 0x3FFC0000) >>> (2 + 4 * 4)) = ts.tv_nsec / 2 ^ 18 := by
    rw [show (0x3FFC0000 : Nat) = (2 ^ 12 - 1) <<< 18 from by norm_num [Nat.shiftLeft_eq],
      show (2 + 4 * 4) = 18 from rfl, nat_window]
    omega
  have hL : ((ts.tv_nsec &&& 0x0003FFC0) >>> (4 + 2)) = ts.tv_nsec / 2 ^ 6 % 2 ^ 12 := by
    rw [show (0x0003FFC0 : Nat) = (2 ^ 12 - 1) <<< 6 from by norm_num [Nat.shiftLeft_eq],
      show (4 + 2) = 6 from rfl, nat_window]
  have hQ : (ts.tv_nsec &&& 0x3F) = ts.tv_nsec % 2 ^ 6 := by
    rw [show (0x3F : Nat) = 2 ^ 6 - 1 from by norm_num, Nat.and_pow_two_sub_one_eq_mod]
  have hb0 : (((ts.tv_sec % (2 ^ 64 : Int)).toNat &&& 0x0000000FFFFFFFFF) &&& 0x0000000FF0000000) >>> (7 * 4) = (ts.tv_sec % (2 ^ 64 : Int)).toNat % 2 ^ 36 / 2 ^ 28 := by
    rw [show (0x0000000FF0000000 : Nat) = (2 ^ 8 - 1) <<< 28 from by norm_num [Nat.shiftLeft_eq],
      show (7 * 4) = 28 from rfl, nat_window, hS]
    omega
  have hb1 : (((ts.tv_sec % (2 ^ 64 : Int)).toNat &&& 0x0000000FFFFFFFFF) &&& 0x000000000FF00000) >>> (5 * 4) = (ts.tv_sec % (2 ^ 64 : Int)).toNat % 2 ^ 36 / 2 ^ 20 % 2 ^ 8 := by
    rw [show (0x000000000FF00000 : Nat) = (2 ^ 8 - 1) <<< 20 from by norm_num [Nat.shiftLeft_eq],
      show (5 * 4) = 20 from rfl, nat_window, hS]
  have hb2 : (((ts.tv_sec % (2 ^ 64 : Int)).toNat &&& 0x0000000FFFFFFFFF) &&& 0x00000000000FF000) >>> (3 * 4) = (ts.tv_sec % (2 ^ 64 : Int)).toNat % 2 ^ 36 / 2 ^ 12 % 2 ^ 8 := by
    rw [show (0x00000000000FF000 : Nat) = (2 ^ 8 - 1) <<< 12 from by norm_num [Nat.shiftLeft_eq],
      show (3 * 4) = 12 from rfl, nat_window, hS]
  have hb3 : (((ts.tv_sec % (2 ^ 64 : Int)).toNat &&& 0x0000000FFFFFFFFF) &&& 0x0000000000000FF0) >>> (1 * 4) = (ts.tv_sec % (2 ^ 64 : Int)).toNat % 2 ^ 36 / 2 ^ 4 % 2 ^ 8 := by
    rw [show (0x0000000000000FF0 : Nat) = (2 ^ 8 - 1) <<< 4 from by norm_num [Nat.shiftLeft_eq],
      show (1 * 4) = 4 from rfl, nat_window, hS]
  have hb4 : ((((ts.tv_sec % (2 ^ 64 : Int)).toNat &&& 0x0000000FFFFFFFFF) &&& 0x000000000000000F) <<< (1 * 4)) ||| ((((ts.tv_nsec &&& 0x3FFC0000) >>> (2 + 4 * 4)) &&& 0x0F00) >>> (2 * 4))
      = (ts.tv_sec % (2 ^ 64 : Int)).toNat % 2 ^ 36 % 2 ^ 4 * 2 ^ 4 + ts.tv_nsec / 2 ^ 26 := by
    rw [show (0x000000000000000F : Nat) = 2 ^ 4 - 1 from by norm_num,
      Nat.and_pow_two_sub_one_eq_mod, hS, hH,
      show (0x0F00 : Nat) = (2 ^ 4 - 1) <<< 8 from by norm_num [Nat.shiftLeft_eq],
      show (2 * 4) = 8 from rfl, nat_window, show (1 * 4) = 4 from rfl,
      nat_shl_or_add _ _ _ (by omega)]
    omega
  have hb5 : ((ts.tv_nsec &&& 0x3FFC0000) >>> (2 + 4 * 4)) &&& 0x00FF = ts.tv_nsec / 2 ^ 18 % 2 ^ 8 := by
    rw [hH, show (0x00FF : Nat) = 2 ^ 8 - 1 from by norm_num, Nat.and_pow_two_sub_one_eq_mod]
  have hb6 : ((uuid7_version &&& 0x0F) <<< 4) ||| ((((ts.tv_nsec &&& 0x0003FFC0) >>> (4 + 2)) &&& 0x0F00) >>> (2 * 4))
      = 7 * 2 ^ 4 + ts.tv_nsec / 2 ^ 14 % 2 ^ 4 := by
    rw [show (uuid7_version &&& 0x0F) = 7 from by decide, hL,
      show (0x0F00 : Nat) = (2 ^ 4 - 1) <<< 8 from by norm_num [Nat.shiftLeft_eq],
      show (2 * 4) = 8 from rfl, nat_window, nat_shl_or_add _ _ _ (by omega)]
    omega
  have hb7 : ((ts.tv_nsec &&& 0x0003FFC0) >>> (4 + 2)) &&& 0x00FF = ts.tv_nsec / 2 ^ 6 % 2 ^ 8 := by
    rw [hL, show (0x00FF : Nat) = 2 ^ 8 - 1 from by norm_num, Nat.and_pow_two_sub_one_eq_mod]
    omega
  have hb8 : ((uuid7_variant &&& 0x03) <<< 6) ||| (ts.tv_nsec &&& 0x3F) = 2 ^ 6 + ts.tv_nsec % 2 ^ 6 := by
    rw [show (uuid7_variant &&& 0x03) = 1 from by decide, hQ,
      nat_shl_or_add _ _ _ (by omega)]
    omega
  have hb10 : (seg &&& 0xFF00) >>> 8 = seg / 2 ^ 8 % 2 ^ 8 := by
    rw [show (0xFF00 : Nat) = (2 ^ 8 - 1) <<< 8 from by norm_num [Nat.shiftLeft_eq], nat_window]
  have hb11 : seg &&& 0x00FF = seg % 2 ^ 8 := by
    rw [show (0x00FF : Nat) = 2 ^ 8 - 1 from by norm_num, Nat.and_pow_two_sub_one_eq_mod]
  have hb12 : (rnd &&& 0x00000000000000FF) >>> (0 * 8) = rnd % 2 ^ 8 := by
    rw [show (0x00000000000000FF : Nat) = 2 ^ 8 - 1 from by norm_num,
      Nat.and_pow_two_sub_one_eq_mod, show (0 * 8) = 0 from rfl, Nat.shiftRight_zero]
  have hb13 : (rnd &&& 0x000000000000FF00) >>> (1 * 8) = rnd / 2 ^ 8 % 2 ^ 8 := by
    rw [show (0x000000000000FF00 : Nat) = (2 ^ 8 - 1) <<< 8 from by norm_num [Nat.shiftLeft_eq],
      show (1 * 8) = 8 from rfl, nat_window]
  have hb14 : (rnd &&& 0x0000000000FF0000) >>> (2 * 8) = rnd / 2 ^ 16 % 2 ^ 8 := by
    rw [show (0x0000000000FF0000 : Nat) = (2 ^ 8 - 1) <<< 16 from by norm_num [Nat.shiftLeft_eq],
      show (2 * 8) = 16 from rfl, nat_window]
  have hb15 : (rnd &&& 0x00000000FF000000) >>> (3 * 8) = rnd / 2 ^ 24 % 2 ^ 8 := by
    rw [show (0x00000000FF000000 : Nat) = (2 ^ 8 - 1) <<< 24 from by norm_num [Nat.shiftLeft_eq],
      show (3 * 8) = 24 from rfl, nat_window]
  simp only [uuid7_encode, hb0, hb1, hb2, hb3, hb4, hb5, hb6, hb7, hb8, hb10, hb11,
    hb12, hb13, hb14, hb15]

/-- Arithmetic characterization of the decoder on a 16-byte buffer. -/
theorem uuid7_parts_fields_spec (b0 b1 b2 b3 b4 b5 b6 b7 b8 b9 b10 b11 b12 b13 b14 b15 : Nat)
    (h1 : b1 < 256) (h2 : b2 < 256) (h3 : b3 < 256) (h4 : b4 < 256)
    (h5 : b5 < 256) (h6 : b6 < 256) (h7 : b7 < 256) (h8 : b8 < 256) (h9 : b9 < 256)
    (h11 : b11 < 256) (h12 : b12 < 256) (h13 : b13 < 256) (h14 : b14 < 256)
    (h0 : b0 < 256) (h10 : b10 < 256) (h15 : b15 < 256) :
    uuid7_parts_fields [b0, b1, b2, b3, b4, b5, b6, b7, b8, b9, b10, b11, b12, b13, b14, b15] =
      { seconds := b0 * 2 ^ 28 + b1 * 2 ^ 20 + b2 * 2 ^ 12 + b3 * 2 ^ 4 + b4 / 2 ^ 4
        hifrac := b4 % 2 ^ 4 * 2 ^ 8 + b5
        uuid_ver := b6 / 2 ^ 4
        lofrac := b6 % 2 ^ 4 * 2 ^ 8 + b7
        uuid_var := b8 / 2 ^ 6
        hiseq := b8 % 2 ^ 6
        loseq := b9
        segment := b10 * 2 ^ 8 + b11
        rand := b15 * 2 ^ 24 + b14 * 2 ^ 16 + b13 * 2 ^ 8 + b12 } := by
  have e4r : b4 >>> 4 = b4 / 2 ^ 4 := Nat.shiftRight_eq_div_pow b4 4
  have s1 : b3 <<< 4 ||| b4 / 2 ^ 4 = b3 * 2 ^ 4 + b4 / 2 ^ 4 :=
    nat_shl_or_add _ _ _ (by omega)
  have s2 : b2 <<< 12 ||| (b3 * 2 ^ 4 + b4 / 2 ^ 4) = b2 * 2 ^ 12 + (b3 * 2 ^ 4 + b4 / 2 ^ 4) :=
    nat_shl_or_add _ _ _ (by omega)
  have s3 : b1 <<< 20 ||| (b2 * 2 ^ 12 + (b3 * 2 ^ 4 + b4 / 2 ^ 4))
      = b1 * 2 ^ 20 + (b2 * 2 ^ 12 + (b3 * 2 ^ 4 + b4 / 2 ^ 4)) :=
    nat_shl_or_add _ _ _ (by omega)
  have s4 : b0 <<< 28 ||| (b1 * 2 ^ 20 + (b2 * 2 ^ 12 + (b3 * 2 ^ 4 + b4 / 2 ^ 4)))
      = b0 * 2 ^ 28 + (b1 * 2 ^ 20 + (b2 * 2 ^ 12 + (b3 * 2 ^ 4 + b4 / 2 ^ 4))) :=
    nat_shl_or_add _ _ _ (by omega)
  have a4 : b4 &&& 15 = b4 % 2 ^ 4 := by
    rw [show (15 : Nat) = 2 ^ 4 - 1 from by norm_num, Nat.and_pow_two_sub_one_eq_mod]
  have t1 : (b4 % 2 ^ 4) <<< 8 ||| b5 = b4 % 2 ^ 4 * 2 ^ 8 + b5 :=
    nat_shl_or_add _ _ _ (by omega)
  have a6 : b6 &&& 15 = b6 % 2 ^ 4 := by
    rw [show (15 : Nat) = 2 ^ 4 - 1 from by norm_num, Nat.and_pow_two_sub_one_eq_mod]
  have t2 : (b6 % 2 ^ 4) <<< 8 ||| b7 = b6 % 2 ^ 4 * 2 ^ 8 + b7 :=
    nat_shl_or_add _ _ _ (by omega)
  have a8 : b8 &&& 63 = b8 % 2 ^ 6 := by
    rw [show (63 : Nat) = 2 ^ 6 - 1 from by norm_num, Nat.and_pow_two_sub_one_eq_mod]
  have t3 : b10 <<< 8 ||| b11 = b10 * 2 ^ 8 + b11 := nat_shl_or_add _ _ _ (by omega)
  have r1 : b13 <<< 8 ||| b12 = b13 * 2 ^ 8 + b12 := nat_shl_or_add _ _ _ (by omega)
  have r2 : b14 <<< 16 ||| (b13 * 2 ^ 8 + b12) = b14 * 2 ^ 16 + (b13 * 2 ^ 8 + b12) :=
    nat_shl_or_add _ _ _ (by omega)
  have r3 : b15 <<< 24 ||| (b14 * 2 ^ 16 + (b13 * 2 ^ 8 + b12))
      = b15 * 2 ^ 24 + (b14 * 2 ^ 16 + (b13 * 2 ^ 8 + b12)) :=
    nat_shl_or_add _ _ _ (by omega)
  simp [uuid7_parts_fields, Uuid7.mk.injEq]
  refine ⟨?_, ?_, ?_, ?_, ?_, ?_, ?_, ?_, ?_⟩
  · rw [Nat.or_assoc, Nat.or_assoc, Nat.or_assoc, e4r, s1, s2, s3, s4]
    omega
  · rw [a4, t1]
    omega
  · rw [show (240 : Nat) = (2 ^ 4 - 1) <<< 4 from by norm_num [Nat.shiftLeft_eq], nat_window]
    omega
  · rw [a6, t2]
    omega
  · rw [show (192 : Nat) = (2 ^ 2 - 1) <<< 6 from by norm_num [Nat.shiftLeft_eq], nat_window]
    omega
  · rw [a8]
    omega
  · exact h9
  · rw [t3]
    omega
  · rw [Nat.or_assoc, Nat.or_assoc, r1, r2, r3]
    omega

/-- C4: for every valid input (seconds fitting the 36-bit field,
nanoseconds in [0, 999999999], 16-bit segment, 32-bit random value),
decoding the encoder's bytes with `uuid7_parts` succeeds, recovers the
seconds exactly, recovers the nanoseconds up to the declared loss of the
low 6 bits (hifrac/lofrac reassemble to the nanoseconds rounded down to
a multiple of 64), and reports version 7 and the fixed variant. -/
theorem uuid7_c4_roundtrip (ts : Timespec) (seg rnd : Nat)
    (hsec0 : 0 ≤ ts.tv_sec) (hsec : ts.tv_sec < 2 ^ 36) (hn : ts.tv_nsec ≤ 999999999)
    (hseg : seg < 2 ^ 16) (hrnd : rnd < 2 ^ 32) :
    uuid7_parts (uuid7_encode ts seg rnd)
        = some (uuid7_parts_fields (uuid7_encode ts seg rnd)) ∧
    ((uuid7_parts_fields (uuid7_encode ts seg rnd)).seconds : Int) = ts.tv_sec ∧
    (uuid7_parts_fields (uuid7_encode ts seg rnd)).hifrac * 2 ^ 18 + (uuid7_parts_fields (uuid7_encode ts seg rnd)).lofrac * 2 ^ 6
        = ts.tv_nsec / 2 ^ 6 * 2 ^ 6 ∧
    (uuid7_parts_fields (uuid7_encode ts seg rnd)).uuid_ver = uuid7_version ∧
    (uuid7_parts_fields (uuid7_encode ts seg rnd)).uuid_var = uuid7_variant := by
  have hn30 : ts.tv_nsec < 2 ^ 30 := by omega
  have hsec64 : ts.tv_sec % (2 ^ 64 : Int) = ts.tv_sec := Int.emod_eq_of_lt hsec0 (by omega)
  have htn : (ts.tv_sec % (2 ^ 64 : Int)).toNat % 2 ^ 36 = ts.tv_sec.toNat := by
    rw [hsec64]
    have h1 : ts.tv_sec.toNat < 2 ^ 36 := by omega
    omega
  have henc := uuid7_encode_spec ts seg rnd hn
  have hfields := uuid7_parts_fields_spec
      ((ts.tv_sec % (2 ^ 64 : Int)).toNat % 2 ^ 36 / 2 ^ 28)
      ((ts.tv_sec % (2 ^ 64 : Int)).toNat % 2 ^ 36 / 2 ^ 20 % 2 ^ 8)
      ((ts.tv_sec % (2 ^ 64 : Int)).toNat % 2 ^ 36 / 2 ^ 12 % 2 ^ 8)
      ((ts.tv_sec % (2 ^ 64 : Int)).toNat % 2 ^ 36 / 2 ^ 4 % 2 ^ 8)
      (((ts.tv_sec % (2 ^ 64 : Int)).toNat % 2 ^ 36 % 2 ^ 4 * 2 ^ 4 + ts.tv_nsec / 2 ^ 26))
      (ts.tv_nsec / 2 ^ 18 % 2 ^ 8)
      ((7 * 2 ^ 4 + ts.tv_nsec / 2 ^ 14 % 2 ^ 4))
      (ts.tv_nsec / 2 ^ 6 % 2 ^ 8)
      ((2 ^ 6 + ts.tv_nsec % 2 ^ 6))
      (0)
      (seg / 2 ^ 8 % 2 ^ 8)
      (seg % 2 ^ 8)
      (rnd % 2 ^ 8)
      (rnd / 2 ^ 8 % 2 ^ 8)
      (rnd / 2 ^ 16 % 2 ^ 8)
      (rnd / 2 ^ 24 % 2 ^ 8)
      (by omega) (by omega) (by omega) (by omega) (by omega) (by omega) (by omega) (by omega) (by omega) (by omega) (by omega) (by omega) (by omega) (by omega) (by omega) (by omega)
  rw [henc] at *
  rw [hfields]
  have hsecval : ((ts.tv_sec % (2 ^ 64 : Int)).toNat % 2 ^ 36 / 2 ^ 28) * 2 ^ 28 + ((ts.tv_sec % (2 ^ 64 : Int)).toNat % 2 ^ 36 / 2 ^ 20 % 2 ^ 8) * 2 ^ 20 + ((ts.tv_sec % (2 ^ 64 : Int)).toNat % 2 ^ 36 / 2 ^ 12 % 2 ^ 8) * 2 ^ 12
      + ((ts.tv_sec % (2 ^ 64 : Int)).toNat % 2 ^ 36 / 2 ^ 4 % 2 ^ 8) * 2 ^ 4 + (((ts.tv_sec % (2 ^ 64 : Int)).toNat % 2 ^ 36 % 2 ^ 4 * 2 ^ 4 + ts.tv_nsec / 2 ^ 26)) / 2 ^ 4 = (ts.tv_sec % (2 ^ 64 : Int)).toNat % 2 ^ 36 := by
    omega
  refine ⟨?_, ?_, ?_, ?_, ?_⟩
  · simp only [uuid7_parts, hfields]
    rw [if_pos]
    constructor
    · show ((7 * 2 ^ 4 + ts.tv_nsec / 2 ^ 14 % 2 ^ 4)) / 2 ^ 4 = uuid7_version
      simp only [uuid7_version]
      omega
    · show ((2 ^ 6 + ts.tv_nsec % 2 ^ 6)) / 2 ^ 6 = uuid7_variant
      simp only [uuid7_variant]
      omega
  · show ((((ts.tv_sec % (2 ^ 64 : Int)).toNat % 2 ^ 36 / 2 ^ 28) * 2 ^ 28 + ((ts.tv_sec % (2 ^ 64 : Int)).toNat % 2 ^ 36 / 2 ^ 20 % 2 ^ 8) * 2 ^ 20 + ((ts.tv_sec % (2 ^ 64 : Int)).toNat % 2 ^ 36 / 2 ^ 12 % 2 ^ 8) * 2 ^ 12
        + ((ts.tv_sec % (2 ^ 64 : Int)).toNat % 2 ^ 36 / 2 ^ 4 % 2 ^ 8) * 2 ^ 4 + (((ts.tv_sec % (2 ^ 64 : Int)).toNat % 2 ^ 36 % 2 ^ 4 * 2 ^ 4 + ts.tv_nsec / 2 ^ 26)) / 2 ^ 4 : Nat) : Int) = ts.tv_sec
    rw [hsecval, htn]
    exact Int.toNat_of_nonneg hsec0
  · show ((((ts.tv_sec % (2 ^ 64 : Int)).toNat % 2 ^ 36 % 2 ^ 4 * 2 ^ 4 + ts.tv_nsec / 2 ^ 26)) % 2 ^ 4 * 2 ^ 8 + ts.tv_nsec / 2 ^ 18 % 2 ^ 8) * 2 ^ 18 + (((7 * 2 ^ 4 + ts.tv_nsec / 2 ^ 14 % 2 ^ 4)) % 2 ^ 4 * 2 ^ 8 + ts.tv_nsec / 2 ^ 6 % 2 ^ 8) * 2 ^ 6 = ts.tv_nsec / 2 ^ 6 * 2 ^ 6
    omega
  · show ((7 * 2 ^ 4 + ts.tv_nsec / 2 ^ 14 % 2 ^ 4)) / 2 ^ 4 = uuid7_version
    simp only [uuid7_version]
    omega
  · show ((2 ^ 6 + ts.tv_nsec % 2 ^ 6)) / 2 ^ 6 = uuid7_variant
    simp only [uuid7_variant]
    omega

/-- C10: the nanosecond value is recoverable exactly from the decoded
fields: hifrac shifted up 18, or lofrac shifted up 6, or hiseq equals
the original nanoseconds, because the low 6 bits not stored in
hifrac/lofrac are stored verbatim in the hiseq field. -/
theorem uuid7_c10_nanos_exact (ts : Timespec) (seg rnd : Nat)
    (hn : ts.tv_nsec ≤ 999999999) :
    uuid7_nanos (uuid7_parts_fields (uuid7_encode ts seg rnd)) = ts.tv_nsec := by
  have hn30 : ts.tv_nsec < 2 ^ 30 := by omega
  have henc := uuid7_encode_spec ts seg rnd hn
  have hfields := uuid7_parts_fields_spec
      ((ts.tv_sec % (2 ^ 64 : Int)).toNat % 2 ^ 36 / 2 ^ 28)
      ((ts.tv_sec % (2 ^ 64 : Int)).toNat % 2 ^ 36 / 2 ^ 20 % 2 ^ 8)
      ((ts.tv_sec % (2 ^ 64 : Int)).toNat % 2 ^ 36 / 2 ^ 12 % 2 ^ 8)
      ((ts.tv_sec % (2 ^ 64 : Int)).toNat % 2 ^ 36 / 2 ^ 4 % 2 ^ 8)
      (((ts.tv_sec % (2 ^ 64 : Int)).toNat % 2 ^ 36 % 2 ^ 4 * 2 ^ 4 + ts.tv_nsec / 2 ^ 26))
      (ts.tv_nsec / 2 ^ 18 % 2 ^ 8)
      ((7 * 2 ^ 4 + ts.tv_nsec / 2 ^ 14 % 2 ^ 4))
      (ts.tv_nsec / 2 ^ 6 % 2 ^ 8)
      ((2 ^ 6 + ts.tv_nsec % 2 ^ 6))
      (0)
      (seg / 2 ^ 8 % 2 ^ 8)
      (seg % 2 ^ 8)
      (rnd % 2 ^ 8)
      (rnd / 2 ^ 8 % 2 ^ 8)
      (rnd / 2 ^ 16 % 2 ^ 8)
      (rnd / 2 ^ 24 % 2 ^ 8)
      (by omega) (by omega) (by omega) (by omega) (by omega) (by omega) (by omega) (by omega) (by omega) (by omega) (by omega) (by omega) (by omega) (by omega) (by omega) (by omega)
  rw [henc, hfields]
  simp only [uuid7_nanos]
  show ((((ts.tv_sec % (2 ^ 64 : Int)).toNat % 2 ^ 36 % 2 ^ 4 * 2 ^ 4 + ts.tv_nsec / 2 ^ 26)) % 2 ^ 4 * 2 ^ 8 + ts.tv_nsec / 2 ^ 18 % 2 ^ 8) <<< 18 ||| (((7 * 2 ^ 4 + ts.tv_nsec / 2 ^ 14 % 2 ^ 4)) % 2 ^ 4 * 2 ^ 8 + ts.tv_nsec / 2 ^ 6 % 2 ^ 8) <<< 6 ||| (((2 ^ 6 + ts.tv_nsec % 2 ^ 6)) % 2 ^ 6) = ts.tv_nsec
  rw [Nat.or_assoc]
  have o1 : (((7 * 2 ^ 4 + ts.tv_nsec / 2 ^ 14 % 2 ^ 4)) % 2 ^ 4 * 2 ^ 8 + ts.tv_nsec / 2 ^ 6 % 2 ^ 8) <<< 6 ||| (((2 ^ 6 + ts.tv_nsec % 2 ^ 6)) % 2 ^ 6) = (((7 * 2 ^ 4 + ts.tv_nsec / 2 ^ 14 % 2 ^ 4)) % 2 ^ 4 * 2 ^ 8 + ts.tv_nsec / 2 ^ 6 % 2 ^ 8) * 2 ^ 6 + (((2 ^ 6 + ts.tv_nsec % 2 ^ 6)) % 2 ^ 6) :=
    nat_shl_or_add _ _ _ (by omega)
  rw [o1]
  have o2 : ((((ts.tv_sec % (2 ^ 64 : Int)).toNat % 2 ^ 36 % 2 ^ 4 * 2 ^ 4 + ts.tv_nsec / 2 ^ 26)) % 2 ^ 4 * 2 ^ 8 + ts.tv_nsec / 2 ^ 18 % 2 ^ 8) <<< 18 ||| ((((7 * 2 ^ 4 + ts.tv_nsec / 2 ^ 14 % 2 ^ 4)) % 2 ^ 4 * 2 ^ 8 + ts.tv_nsec / 2 ^ 6 % 2 ^ 8) * 2 ^ 6 + (((2 ^ 6 + ts.tv_nsec % 2 ^ 6)) % 2 ^ 6))
      = ((((ts.tv_sec % (2 ^ 64 : Int)).toNat % 2 ^ 36 % 2 ^ 4 * 2 ^ 4 + ts.tv_nsec / 2 ^ 26)) % 2 ^ 4 * 2 ^ 8 + ts.tv_nsec / 2 ^ 18 % 2 ^ 8) * 2 ^ 18 + ((((7 * 2 ^ 4 + ts.tv_nsec / 2 ^ 14 % 2 ^ 4)) % 2 ^ 4 * 2 ^ 8 + ts.tv_nsec / 2 ^ 6 % 2 ^ 8) * 2 ^ 6 + (((2 ^ 6 + ts.tv_nsec % 2 ^ 6)) % 2 ^ 6)) :=
    nat_shl_or_add _ _ _ (by omega)
  rw [o2]
  omega

/-- C5 (amended): segment occupies bytes 10..11 big-endian, but the
32-bit random tail occupies bytes 12..15 in little-endian order: byte 12
holds its least significant byte and byte 15 its most significant; the
decoder reads the tail in the same order, so the random value
round-trips through `uuid7_parts`. -/
theorem uuid7_c5_rand_tail (ts : Timespec) (seg rnd : Nat)
    (hn : ts.tv_nsec ≤ 999999999) (hrnd : rnd < 2 ^ 32) :
    (uuid7_encode ts seg rnd).getD 10 0 = seg / 2 ^ 8 % 2 ^ 8 ∧
    (uuid7_encode ts seg rnd).getD 11 0 = seg % 2 ^ 8 ∧
    (uuid7_encode ts seg rnd).getD 12 0 = rnd % 2 ^ 8 ∧
    (uuid7_encode ts seg rnd).getD 13 0 = rnd / 2 ^ 8 % 2 ^ 8 ∧
    (uuid7_encode ts seg rnd).getD 14 0 = rnd / 2 ^ 16 % 2 ^ 8 ∧
    (uuid7_encode ts seg rnd).getD 15 0 = rnd / 2 ^ 24 ∧
    (uuid7_parts_fields (uuid7_encode ts seg rnd)).rand = rnd := by
  have hn30 : ts.tv_nsec < 2 ^ 30 := by omega
  have henc := uuid7_encode_spec ts seg rnd hn
  have hfields := uuid7_parts_fields_spec
      ((ts.tv_sec % (2 ^ 64 : Int)).toNat % 2 ^ 36 / 2 ^ 28)
      ((ts.tv_sec % (2 ^ 64 : Int)).toNat % 2 ^ 36 / 2 ^ 20 % 2 ^ 8)
      ((ts.tv_sec % (2 ^ 64 : Int)).toNat % 2 ^ 36 / 2 ^ 12 % 2 ^ 8)
      ((ts.tv_sec % (2 ^ 64 : Int)).toNat % 2 ^ 36 / 2 ^ 4 % 2 ^ 8)
      (((ts.tv_sec % (2 ^ 64 : Int)).toNat % 2 ^ 36 % 2 ^ 4 * 2 ^ 4 + ts.tv_nsec / 2 ^ 26))
      (ts.tv_nsec / 2 ^ 18 % 2 ^ 8)
      ((7 * 2 ^ 4 + ts.tv_nsec / 2 ^ 14 % 2 ^ 4))
      (ts.tv_nsec / 2 ^ 6 % 2 ^ 8)
      ((2 ^ 6 + ts.tv_nsec % 2 ^ 6))
      (0)
      (seg / 2 ^ 8 % 2 ^ 8)
      (seg % 2 ^ 8)
      (rnd % 2 ^ 8)
      (rnd / 2 ^ 8 % 2 ^ 8)
      (rnd / 2 ^ 16 % 2 ^ 8)
      (rnd / 2 ^ 24 % 2 ^ 8)
      (by omega) (by omega) (by omega) (by omega) (by omega) (by omega) (by omega) (by omega) (by omega) (by omega) (by omega) (by omega) (by omega) (by omega) (by omega) (by omega)
  rw [henc, hfields]
  refine ⟨rfl, rfl, rfl, rfl, rfl, ?_, ?_⟩
  · show rnd / 2 ^ 24 % 2 ^ 8 = rnd / 2 ^ 24
    omega
  · show (rnd / 2 ^ 24 % 2 ^ 8) * 2 ^ 24 + (rnd / 2 ^ 16 % 2 ^ 8) * 2 ^ 16 + (rnd / 2 ^ 8 % 2 ^ 8) * 2 ^ 8 + (rnd % 2 ^ 8) = rnd
    omega

/-- C5 counterexample: for the random value 0x01020304 the encoder puts
0x04, the least significant byte, at byte 12 (and 0x01, the most
significant, at byte 15), refuting the claim that the most significant
byte of the random tail sits at byte 12. -/
theorem uuid7_c5_counterexample :
    (uuid7_encode ⟨0, 0⟩ 0 0x01020304).getD 12 0 = 0x04 ∧
    (uuid7_encode ⟨0, 0⟩ 0 0x01020304).getD 15 0 = 0x01 ∧
    ¬ (uuid7_encode ⟨0, 0⟩ 0 0x01020304).getD 12 0 = 0x01 := by
  decide

theorem uuid7_nibble_hex : ∀ nib < 16,
    ('0' ≤ uuid7_nibble_to_hex nib ∧ uuid7_nibble_to_hex nib ≤ '9') ∨
    ('a' ≤ uuid7_nibble_to_hex nib ∧ uuid7_nibble_to_hex nib ≤ 'f') := by
  decide

theorem uuid7_chars_mem (bytes : List Nat) : ∀ (i : Nat), ∀ c ∈ uuid7_chars i bytes,
    c = '-' ∨ ∃ nib, nib < 16 ∧ c = uuid7_nibble_to_hex nib := by
  induction bytes with
  | nil =>
    intro i c hc
    simp [uuid7_chars] at hc
  | cons b rest ih =>
    intro i c hc
    simp only [uuid7_chars] at hc
    by_cases hif : i = 3 ∨ i = 3 + 2 ∨ i = 3 + 2 + 2 ∨ i = 3 + 2 + 2 + 2
    · simp only [if_pos hif, List.cons_append, List.nil_append, List.mem_cons] at hc
      rcases hc with rfl | rfl | rfl | h
      · exact Or.inr ⟨(b &&& 0xF0) >>> 4,
          lt_of_le_of_lt (nat_mask_shr_le _ _ _) (by decide), rfl⟩
      · exact Or.inr ⟨b &&& 0x0F, lt_of_le_of_lt Nat.and_le_right (by decide), rfl⟩
      · exact Or.inl rfl
      · exact ih (i + 1) c h
    · simp only [if_neg hif, List.cons_append, List.nil_append, List.mem_cons] at hc
      rcases hc with rfl | rfl | h
      · exact Or.inr ⟨(b &&& 0xF0) >>> 4,
          lt_of_le_of_lt (nat_mask_shr_le _ _ _) (by decide), rfl⟩
      · exact Or.inr ⟨b &&& 0x0F, lt_of_le_of_lt Nat.and_le_right (by decide), rfl⟩
      · exact ih (i + 1) c h

/-- C6: the string formatter renders any 16 bytes as a 36-character
string of lowercase hex digits with hyphens at positions 8, 13, 18 and
23 (after bytes 4, 6, 8 and 10: the 8-4-4-4-12 grouping), and the bytes
01 23 45 67 89 ab 7c de 9f 01 23 45 67 89 ab cd format to exactly
"01234567-89ab-7cde-9f01-23456789abcd". -/
theorem uuid7_c6_to_string (buf : List Nat) (hbuf : 37 ≤ buf.length)
    (b0 b1 b2 b3 b4 b5 b6 b7 b8 b9 b10 b11 b12 b13 b14 b15 : Nat) :
    (∃ s, (uuid7_to_string buf [b0, b1, b2, b3, b4, b5, b6, b7, b8, b9, b10, b11, b12, b13, b14, b15]).1 = some s ∧
       s.data.length = 36 ∧
       s.data.getD 8 ' ' = '-' ∧ s.data.getD 13 ' ' = '-' ∧
       s.data.getD 18 ' ' = '-' ∧ s.data.getD 23 ' ' = '-' ∧
       ∀ c ∈ s.data, c = '-' ∨
         ('0' ≤ c ∧ c ≤ '9') ∨ ('a' ≤ c ∧ c ≤ 'f')) ∧
    (uuid7_to_string (List.replicate 40 0)
        [0x01, 0x23, 0x45, 0x67, 0x89, 0xab, 0x7c, 0xde,
         0x9f, 0x01, 0x23, 0x45, 0x67, 0x89, 0xab, 0xcd]).1
      = some "01234567-89ab-7cde-9f01-23456789abcd" := by
  constructor
  · have hret : (uuid7_to_string buf [b0, b1, b2, b3, b4, b5, b6, b7, b8, b9, b10, b11, b12, b13, b14, b15]).1
        = some (String.mk (uuid7_chars 0 [b0, b1, b2, b3, b4, b5, b6, b7, b8, b9, b10, b11, b12, b13, b14, b15])) := by
      simp only [uuid7_to_string]
      rw [if_neg (by omega)]
    refine ⟨String.mk (uuid7_chars 0 [b0, b1, b2, b3, b4, b5, b6, b7, b8, b9, b10, b11, b12, b13, b14, b15]), hret, ?_, ?_, ?_, ?_, ?_, ?_⟩
    · show (uuid7_chars 0 [b0, b1, b2, b3, b4, b5, b6, b7, b8, b9, b10, b11, b12, b13, b14, b15]).length = 36
      simp [uuid7_chars]
    · show (uuid7_chars 0 [b0, b1, b2, b3, b4, b5, b6, b7, b8, b9, b10, b11, b12, b13, b14, b15]).getD 8 ' ' = '-'
      simp [uuid7_chars]
    · show (uuid7_chars 0 [b0, b1, b2, b3, b4, b5, b6, b7, b8, b9, b10, b11, b12, b13, b14, b15]).getD 13 ' ' = '-'
      simp [uuid7_chars]
    · show (uuid7_chars 0 [b0, b1, b2, b3, b4, b5, b6, b7, b8, b9, b10, b11, b12, b13, b14, b15]).getD 18 ' ' = '-'
      simp [uuid7_chars]
    · show (uuid7_chars 0 [b0, b1, b2, b3, b4, b5, b6, b7, b8, b9, b10, b11, b12, b13, b14, b15]).getD 23 ' ' = '-'
      simp [uuid7_chars]
    · intro c hc
      rcases uuid7_chars_mem [b0, b1, b2, b3, b4, b5, b6, b7, b8, b9, b10, b11, b12, b13, b14, b15] 0 c hc with h | ⟨nib, hlt, rfl⟩
      · exact Or.inl h
      · exact Or.inr (uuid7_nibble_hex nib hlt)
  · rfl

/-- C7: calling the string formatter with a destination buffer smaller
than 37 bytes fails (returns NULL) and leaves the whole destination
zero-filled, writing no hex characters. -/
theorem uuid7_c7_buffer_guard (buf bytes : List Nat) (h : buf.length < 37) :
    (uuid7_to_string buf bytes).1 = none ∧
    (uuid7_to_string buf bytes).2 = List.replicate buf.length 0 := by
  have hz : uuid7_minz (16 * 2 + 4 + 1) buf.length = buf.length := by
    simp only [uuid7_minz]
    rw [if_neg (by omega)]
  simp only [uuid7_to_string, hz]
  rw [if_pos (by omega)]
  refine ⟨rfl, ?_⟩
  show List.replicate buf.length 0 ++ buf.drop buf.length = List.replicate buf.length 0
  rw [List.drop_length]
  simp

theorem memcmp_zeros_lt (l : List Nat) (hne : ∃ x ∈ l, x ≠ 0) :
    memcmp (List.replicate l.length 0) l = Ordering.lt := by
  induction l with
  | nil =>
    rcases hne with ⟨x, hx, _⟩
    simp at hx
  | cons b rest ih =>
    simp only [List.length_cons, List.replicate_succ, memcmp]
    by_cases hb : 0 < b
    · rw [if_pos hb]
    · have hb0 : b = 0 := by omega
      rw [if_neg hb, if_neg (by omega)]
      apply ih
      rcases hne with ⟨x, hx, hxne⟩
      rcases List.mem_cons.mp hx with rfl | hmem
      · omega
      · exact ⟨x, hmem, hxne⟩

/-- C8: `uuid7_reset` unconditionally zeroes the 16-byte last-issued
state, and after a reset the next `uuid7_next` call succeeds for any
valid timestamp (even a clock that has not caught up from a prior
regression), its output becoming the new monotonic baseline. -/
theorem uuid7_c8_reset (last : List Nat) (ts : Timespec) (seg rnd : Nat)
    (hn : ts.tv_nsec ≤ 999999999) :
    uuid7_reset last = List.replicate 16 0 ∧
    (uuid7_next ts seg rnd (uuid7_reset last)).ret = true ∧
    (uuid7_next ts seg rnd (uuid7_reset last)).last
      = (uuid7_next ts seg rnd (uuid7_reset last)).ubuf := by
  have hne : ∃ x ∈ (uuid7_encode ts seg rnd).take 9, x ≠ 0 := by
    rw [uuid7_encode_spec ts seg rnd hn]
    refine ⟨7 * 2 ^ 4 + ts.tv_nsec / 2 ^ 14 % 2 ^ 4, ?_, by omega⟩
    simp
  have hlen : (List.replicate 16 (0 : Nat)).take 9
      = List.replicate ((uuid7_encode ts seg rnd).take 9).length 0 := rfl
  have hcmp : memcmp ((List.replicate 16 (0 : Nat)).take 9)
      ((uuid7_encode ts seg rnd).take 9) = Ordering.lt := by
    rw [hlen]
    exact memcmp_zeros_lt _ hne
  have hres : uuid7_next ts seg rnd (uuid7_reset last)
      = ⟨true, uuid7_encode ts seg rnd, uuid7_encode ts seg rnd⟩ := by
    simp only [uuid7_next, uuid7_reset, hcmp]
  rw [hres]
  exact ⟨rfl, rfl, rfl⟩

theorem getD_set9_ne (l : List Nat) (h16 : l.length = 16) (v : Nat) (j : Nat)
    (hj : j < 9) : (l.set 9 v).getD j 0 = l.getD j 0 := by
  have hj1 : j < l.length := by omega
  have hj2 : j < (l.set 9 v).length := by
    simp only [List.length_set, h16]
    omega
  rw [List.getD_eq_getElem _ 0 hj2, List.getD_eq_getElem _ 0 hj1]
  exact List.getElem_set_ne (by omega) (by simp only [List.length_set, h16]; omega)

theorem uuid7_next_success_bytes (ts : Timespec) (seg rnd : Nat) (last : List Nat) :
    ((uuid7_next ts seg rnd last).ret = false →
       (uuid7_next ts seg rnd last).ubuf = List.replicate 16 0) ∧
    ((uuid7_next ts seg rnd last).ret = true →
       (((uuid7_next ts seg rnd last).ubuf.getD 6 0 &&& 0xF0) >>> 4 = uuid7_version ∧
        ((uuid7_next ts seg rnd last).ubuf.getD 8 0 &&& 0xC0) >>> 6 = uuid7_variant ∧
        (uuid7_next ts seg rnd last).ubuf ≠ List.replicate 16 0)) := by
  have hver : ∀ u : List Nat, u.getD 6 0 = (uuid7_encode ts seg rnd).getD 6 0 →
      u.getD 8 0 = (uuid7_encode ts seg rnd).getD 8 0 →
      ((u.getD 6 0 &&& 0xF0) >>> 4 = uuid7_version ∧
       (u.getD 8 0 &&& 0xC0) >>> 6 = uuid7_variant ∧
       u ≠ List.replicate 16 0) := by
    intro u h6 h8
    have ht : (((ts.tv_nsec &&& 0x0003FFC0) >>> (4 + 2)) &&& 0x0F00) >>> (2 * 4) ≤ 15 :=
      le_trans (nat_mask_shr_le _ _ _) (by decide)
    have hq : ts.tv_nsec &&& 0x3F ≤ 63 := Nat.and_le_right
    have hb6 : (uuid7_encode ts seg rnd).getD 6 0
        = 112 ||| ((((ts.tv_nsec &&& 0x0003FFC0) >>> (4 + 2)) &&& 0x0F00) >>> (2 * 4)) := rfl
    have hb8 : (uuid7_encode ts seg rnd).getD 8 0 = 64 ||| (ts.tv_nsec &&& 0x3F) := rfl
    have h112 : (112 : Nat) ||| ((((ts.tv_nsec &&& 0x0003FFC0) >>> (4 + 2)) &&& 0x0F00) >>> (2 * 4))
        = 7 * 2 ^ 4 + ((((ts.tv_nsec &&& 0x0003FFC0) >>> (4 + 2)) &&& 0x0F00) >>> (2 * 4)) := by
      rw [show (112 : Nat) = 7 <<< 4 from rfl, nat_shl_or_add _ _ _ (by omega)]
    have h64 : (64 : Nat) ||| (ts.tv_nsec &&& 0x3F) = 1 * 2 ^ 6 + (ts.tv_nsec &&& 0x3F) := by
      rw [show (64 : Nat) = 1 <<< 6 from rfl, nat_shl_or_add _ _ _ (by omega)]
    have hv6 : (u.getD 6 0 &&& 0xF0) >>> 4 = 7 := by
      rw [h6, hb6, h112,
        show (0xF0 : Nat) = (2 ^ 4 - 1) <<< 4 from by norm_num [Nat.shiftLeft_eq], nat_window]
      omega
    have hv8 : (u.getD 8 0 &&& 0xC0) >>> 6 = 1 := by
      rw [h8, hb8, h64,
        show (0xC0 : Nat) = (2 ^ 2 - 1) <<< 6 from by norm_num [Nat.shiftLeft_eq], nat_window]
      omega
    refine ⟨hv6, hv8, ?_⟩
    intro heq
    rw [heq] at hv6
    simp at hv6
  obtain ⟨hulen, _⟩ := uuid7_encode_valid ts seg rnd
  cases hcmp : memcmp (last.take 9) ((uuid7_encode ts seg rnd).take 9) with
  | gt =>
    have hres : uuid7_next ts seg rnd last = ⟨false, List.replicate 16 0, last⟩ := by
      simp only [uuid7_next, hcmp]
    rw [hres]
    exact ⟨fun _ => rfl, fun h => by simp at h⟩
  | lt =>
    have hres : uuid7_next ts seg rnd last
        = ⟨true, uuid7_encode ts seg rnd, uuid7_encode ts seg rnd⟩ := by
      simp only [uuid7_next, hcmp]
    rw [hres]
    exact ⟨fun h => by simp at h, fun _ => hver _ rfl rfl⟩
  | eq =>
    by_cases hseq : 1 + last.getD 9 0 ≤ 0xFF
    · have hres : uuid7_next ts seg rnd last
          = ⟨true, (uuid7_encode ts seg rnd).set 9 ((1 + last.getD 9 0) % 0x100),
            (uuid7_encode ts seg rnd).set 9 ((1 + last.getD 9 0) % 0x100)⟩ := by
        simp only [uuid7_next, hcmp]
        rw [if_pos hseq]
      rw [hres]
      refine ⟨fun h => by simp at h, fun _ => hver _ ?_ ?_⟩
      · exact getD_set9_ne _ hulen _ 6 (by omega)
      · exact getD_set9_ne _ hulen _ 8 (by omega)
    · by_cases hc2 : memcmp last ((uuid7_encode ts seg rnd).set 9 0xFF) = Ordering.lt
      · have hres : uuid7_next ts seg rnd last
            = ⟨true, (uuid7_encode ts seg rnd).set 9 0xFF,
              (uuid7_encode ts seg rnd).set 9 0xFF⟩ := by
          simp only [uuid7_next, hcmp]
          rw [if_neg hseq, if_pos hc2]
        rw [hres]
        refine ⟨fun h => by simp at h, fun _ => hver _ ?_ ?_⟩
        · exact getD_set9_ne _ hulen _ 6 (by omega)
        · exact getD_set9_ne _ hulen _ 8 (by omega)
      · have hres : uuid7_next ts seg rnd last = ⟨false, List.replicate 16 0, last⟩ := by
          simp only [uuid7_next, hcmp]
          rw [if_neg hseq, if_neg hc2]
        rw [hres]
        exact ⟨fun _ => rfl, fun h => by simp at h⟩

/-- C9: every generation failure of `uuid7` (time-source failure,
randomness failure or short read, clock regression, sequence
exhaustion) returns NULL together with a zero-filled 16-byte output
buffer, and every successful call produces an identifier whose version
field decodes to 7 and whose variant field decodes to the fixed
non-zero constant, so a successful call can never produce the all-zero
identifier. -/
theorem uuid7_c9_failures_zero (clock : Option Timespec) (rndbytes : Int)
    (random_bytes : Nat) (last : List Nat) :
    ((uuid7 clock rndbytes random_bytes last).ret = false →
       (uuid7 clock rndbytes random_bytes last).ubuf = List.replicate 16 0) ∧
    ((uuid7 clock rndbytes random_bytes last).ret = true →
       (((uuid7 clock rndbytes random_bytes last).ubuf.getD 6 0 &&& 0xF0) >>> 4
           = uuid7_version ∧
        ((uuid7 clock rndbytes random_bytes last).ubuf.getD 8 0 &&& 0xC0) >>> 6
           = uuid7_variant ∧
        (uuid7 clock rndbytes random_bytes last).ubuf ≠ List.replicate 16 0)) := by
  cases clock with
  | none =>
    have hres : uuid7 none rndbytes random_bytes last
        = ⟨false, List.replicate 16 0, last⟩ := rfl
    rw [hres]
    exact ⟨fun _ => rfl, fun h => by simp at h⟩
  | some ts =>
    by_cases hr : rndbytes < 0 ∨ rndbytes ≠ 8
    · have hres : uuid7 (some ts) rndbytes random_bytes last
          = ⟨false, List.replicate 16 0, last⟩ := by
        simp only [uuid7]
        rw [if_pos hr]
      rw [hres]
      exact ⟨fun _ => rfl, fun h => by simp at h⟩
    · have hres : uuid7 (some ts) rndbytes random_bytes last
          = uuid7_next ts ((random_bytes >>> (4 * 8)) % 2 ^ 16)
              (0xFFFFFFFF &&& random_bytes) last := by
        simp only [uuid7]
        rw [if_neg hr]
      rw [hres]
      exact uuid7_next_success_bytes ts _ _ last

theorem uuid7_c4_roundtrip_witness :
    uuid7_parts (uuid7_encode ⟨1711030306, 999999999⟩ 0x0102 0x04030201) = some (uuid7_parts_fields (uuid7_encode ⟨1711030306, 999999999⟩ 0x0102 0x04030201)) ∧
    ((uuid7_parts_fields (uuid7_encode ⟨1711030306, 999999999⟩ 0x0102 0x04030201)).seconds : Int) = 1711030306 ∧
    (uuid7_parts_fields (uuid7_encode ⟨1711030306, 999999999⟩ 0x0102 0x04030201)).hifrac * 2 ^ 18 + (uuid7_parts_fields (uuid7_encode ⟨1711030306, 999999999⟩ 0x0102 0x04030201)).lofrac * 2 ^ 6 = 999999999 / 2 ^ 6 * 2 ^ 6 ∧
    (uuid7_parts_fields (uuid7_encode ⟨1711030306, 999999999⟩ 0x0102 0x04030201)).uuid_ver = uuid7_version ∧
    (uuid7_parts_fields (uuid7_encode ⟨1711030306, 999999999⟩ 0x0102 0x04030201)).uuid_var = uuid7_variant :=
  uuid7_c4_roundtrip ⟨1711030306, 999999999⟩ 0x0102 0x04030201
    (by decide) (by decide) (by decide) (by decide) (by decide)

theorem uuid7_c10_nanos_exact_witness :
    uuid7_nanos (uuid7_parts_fields (uuid7_encode ⟨1711030306, 999999999⟩ 0x0102 0x04030201)) = 999999999 :=
  uuid7_c10_nanos_exact ⟨1711030306, 999999999⟩ 0x0102 0x04030201 (by decide)

theorem uuid7_c5_rand_tail_witness :
    (uuid7_encode ⟨0, 0⟩ 0x0102 0x04030201).getD 10 0 = 0x0102 / 2 ^ 8 % 2 ^ 8 ∧
    (uuid7_encode ⟨0, 0⟩ 0x0102 0x04030201).getD 11 0 = 0x0102 % 2 ^ 8 ∧
    (uuid7_encode ⟨0, 0⟩ 0x0102 0x04030201).getD 12 0 = 0x04030201 % 2 ^ 8 ∧
    (uuid7_encode ⟨0, 0⟩ 0x0102 0x04030201).getD 13 0 = 0x04030201 / 2 ^ 8 % 2 ^ 8 ∧
    (uuid7_encode ⟨0, 0⟩ 0x0102 0x04030201).getD 14 0 = 0x04030201 / 2 ^ 16 % 2 ^ 8 ∧
    (uuid7_encode ⟨0, 0⟩ 0x0102 0x04030201).getD 15 0 = 0x04030201 / 2 ^ 24 ∧
    (uuid7_parts_fields (uuid7_encode ⟨0, 0⟩ 0x0102 0x04030201)).rand = 0x04030201 :=
  uuid7_c5_rand_tail ⟨0, 0⟩ 0x0102 0x04030201 (by decide) (by decide)

theorem uuid7_c6_to_string_witness :
    (∃ s, (uuid7_to_string (List.replicate 40 0) [1, 2, 3, 4, 5, 6, 7, 8, 9, 10, 11, 12, 13, 14, 15, 16]).1 = some s ∧
       s.data.length = 36 ∧
       s.data.getD 8 ' ' = '-' ∧ s.data.getD 13 ' ' = '-' ∧
       s.data.getD 18 ' ' = '-' ∧ s.data.getD 23 ' ' = '-' ∧
       ∀ c ∈ s.data, c = '-' ∨
         ('0' ≤ c ∧ c ≤ '9') ∨ ('a' ≤ c ∧ c ≤ 'f')) ∧
    (uuid7_to_string (List.replicate 40 0)
        [0x01, 0x23, 0x45, 0x67, 0x89, 0xab, 0x7c, 0xde,
         0x9f, 0x01, 0x23, 0x45, 0x67, 0x89, 0xab, 0xcd]).1
      = some "01234567-89ab-7cde-9f01-23456789abcd" :=
  uuid7_c6_to_string (List.replicate 40 0) (by decide) 1 2 3 4 5 6 7 8 9 10 11 12 13 14 15 16

theorem uuid7_c7_buffer_guard_witness :
    (uuid7_to_string (List.replicate 7 9) [1, 2]).1 = none ∧
    (uuid7_to_string (List.replicate 7 9) [1, 2]).2
      = List.replicate (List.replicate 7 (9 : Nat)).length 0 :=
  uuid7_c7_buffer_guard (List.replicate 7 9) [1, 2] (by decide)

theorem uuid7_c8_reset_witness :
    uuid7_reset (List.replicate 16 3) = List.replicate 16 0 ∧
    (uuid7_next ⟨50, 123⟩ 1 2 (uuid7_reset (List.replicate 16 3))).ret = true ∧
    (uuid7_next ⟨50, 123⟩ 1 2 (uuid7_reset (List.replicate 16 3))).last
      = (uuid7_next ⟨50, 123⟩ 1 2 (uuid7_reset (List.replicate 16 3))).ubuf :=
  uuid7_c8_reset (List.replicate 16 3) ⟨50, 123⟩ 1 2 (by decide)

theorem uuid7_c9_failures_zero_witness :
    (uuid7 none 8 0 (List.replicate 16 0)).ubuf = List.replicate 16 0 ∧
    (((uuid7 (some ⟨100, 0⟩) 8 5 (List.replicate 16 0)).ubuf.getD 6 0 &&& 0xF0) >>> 4
        = uuid7_version ∧
     ((uuid7 (some ⟨100, 0⟩) 8 5 (List.replicate 16 0)).ubuf.getD 8 0 &&& 0xC0) >>> 6
        = uuid7_variant ∧
     (uuid7 (some ⟨100, 0⟩) 8 5 (List.replicate 16 0)).ubuf ≠ List.replicate 16 0) :=
  ⟨(uuid7_c9_failures_zero none 8 0 (List.replicate 16 0)).1 (by decide),
   (uuid7_c9_failures_zero (some ⟨100, 0⟩) 8 5 (List.replicate 16 0)).2 (by decide)⟩
